import Mathlib

/-!
Verification development for the node-migration core of clusterman
(`clusterman/migration/worker.py` plus the draining-queue, settings and
condition-model components described by the specification).

Python strings are modelled as Lean `String`s, wall-clock timestamps and
durations as `Nat` seconds, and the stateful collaborators of each function
(pool manager, cluster connector, queue client, clock) as explicit
environment records of oracle functions.  Side effects are recorded as
explicit effect traces so that frame conditions can be stated.
-/

namespace Clusterman

/-! ## Data model: the engine's view of a live node (`interfaces/types.py`) -/

structure AgentMetadata where
  agent_id : String
  task_count : Nat
deriving Repr, DecidableEq

structure InstanceMetadata where
  ip_address : String
  uptime : Nat
  instance_id : String
  weight : Nat
deriving Repr, DecidableEq

structure ClusterNodeMetadata where
  agent : AgentMetadata
  instance_meta : InstanceMetadata
deriving Repr, DecidableEq

/-! ## `_monitor_pool_health` (worker.py lines 73-109)

The manager/connector/clock collaborators are modelled as an environment of
oracle functions indexed by the poll tick `k` (the source polls in a
`while time.time() < timeout` loop, reloading state each tick).  Effects of
each poll are recorded in a trace so that frame claims can be settled. -/

structure PollEnv where
  /-- clock value observed by the k-th `time.time() < timeout` check -/
  timeAt : Nat → Nat
  /-- `connector.get_agent_metadata(ip).agent_id` observed at tick k -/
  agentAt : Nat → String → String
  /-- `manager.is_capacity_satisfied()` observed at tick k -/
  capSat : Nat → Bool
  /-- `connector.has_enough_capacity_for_pods()` observed at tick k -/
  podsCap : Nat → Bool

structure MonitorState where
  draining_happened : Bool
  capacity_satisfied : Bool
  pods_healthy : Bool
deriving Repr, DecidableEq

def initMonitorState : MonitorState := ⟨false, false, false⟩

/-- One poll of the monitor loop body: the three latch updates of
worker.py lines 93-100, in source order (`x = x or ...`). -/
def monitorStep (env : PollEnv) (drained : List ClusterNodeMetadata) (ignore_pod_health : Bool)
    (k : Nat) (st : MonitorState) : MonitorState :=
  let dh := st.draining_happened ||
    !(drained.any fun node => node.agent.agent_id == env.agentAt k node.instance_meta.ip_address)
  let cs := st.capacity_satisfied || (dh && env.capSat k)
  let ph := st.pods_healthy || (dh && (ignore_pod_health || env.podsCap k))
  ⟨dh, cs, ph⟩

/-- Effects performed by the monitor (frame model). -/
inductive MEffect where
  | reloadState (load_pods_info : Bool)
  | getAgentMetadata (ip : String)
  | isCapacitySatisfied
  | hasEnoughCapacityForPods
  | sleep (seconds : Nat)
deriving Repr, DecidableEq

/-- `get_agent_metadata` calls made by the short-circuiting
`any(node.agent.agent_id == connector.get_agent_metadata(...).agent_id ...)`
generator at tick k: one call per node until the first match. -/
def agentCheckCalls (env : PollEnv) (k : Nat) : List ClusterNodeMetadata → List MEffect
  | [] => []
  | node :: rest =>
    if node.agent.agent_id == env.agentAt k node.instance_meta.ip_address then
      [MEffect.getAgentMetadata node.instance_meta.ip_address]
    else
      MEffect.getAgentMetadata node.instance_meta.ip_address :: agentCheckCalls env k rest

/-- Collaborator calls made by one poll of the loop body, following Python's
short-circuit evaluation: the agent metadata lookups only run while
`draining_happened` is still false, `is_capacity_satisfied` only when
`capacity_satisfied` is false and (updated) `draining_happened` is true, and
`has_enough_capacity_for_pods` additionally only when pod health is not
ignored. -/
def pollEffects (env : PollEnv) (drained : List ClusterNodeMetadata) (ignore_pod_health : Bool)
    (k : Nat) (st : MonitorState) : List MEffect :=
  let st2 := monitorStep env drained ignore_pod_health k st
  MEffect.reloadState (!ignore_pod_health) ::
    (if st.draining_happened then [] else agentCheckCalls env k drained) ++
    (if !st.capacity_satisfied && st2.draining_happened then [MEffect.isCapacitySatisfied] else []) ++
    (if !st.pods_healthy && st2.draining_happened && !ignore_pod_health then
      [MEffect.hasEnoughCapacityForPods] else [])

/-- The monitor loop.  `fuel` bounds the number of polls (`none` models a run
that has not returned within `fuel` polls); `k` is the current poll index.
On success the returned index is the number of polls executed.  The time
check happens before any poll, exactly as in the source `while` head. -/
def monitorRun (env : PollEnv) (timeout : Nat) (drained : List ClusterNodeMetadata)
    (interval : Nat) (ignore_pod_health : Bool) :
    Nat → Nat → MonitorState → Option (Bool × Nat) × List MEffect
  | 0, k, _ =>
    if timeout ≤ env.timeAt k then (some (false, k), []) else (none, [])
  | fuel + 1, k, st =>
    if timeout ≤ env.timeAt k then
      (some (false, k), [])
    else
      let st2 := monitorStep env drained ignore_pod_health k st
      let effs := pollEffects env drained ignore_pod_health k st
      if st2.draining_happened && st2.capacity_satisfied && st2.pods_healthy then
        (some (true, k + 1), effs)
      else
        let rest := monitorRun env timeout drained interval ignore_pod_health fuel (k + 1) st2
        (rest.1, effs ++ MEffect.sleep interval :: rest.2)

/-- `_monitor_pool_health(manager, timeout, drained, health_check_interval_seconds,
ignore_pod_health)`, instrumented with the poll count and the effect trace. -/
def monitor_pool_health (env : PollEnv) (timeout : Nat) (drained : List ClusterNodeMetadata)
    (interval : Nat) (ignore_pod_health : Bool) (fuel : Nat) :
    Option (Bool × Nat) × List MEffect :=
  monitorRun env timeout drained interval ignore_pod_health fuel 0 initMonitorState

/-- Latch state after `k` polls of the loop body. -/
def stateAfter (env : PollEnv) (drained : List ClusterNodeMetadata) (ignore_pod_health : Bool) :
    Nat → MonitorState
  | 0 => initMonitorState
  | k + 1 => monitorStep env drained ignore_pod_health k (stateAfter env drained ignore_pod_health k)

def allLatches (st : MonitorState) : Prop :=
  st.draining_happened = true ∧ st.capacity_satisfied = true ∧ st.pods_healthy = true

instance (st : MonitorState) : Decidable (allLatches st) := by
  unfold allLatches; infer_instance

/-! ## Worker setup (`clusterman/migration/settings.py`)

Modelled from the spec: `clusterman/migration/settings.py` is not under
`src/`; `PoolPortion`, `MigrationPrecendence` and `WorkerSetup` are modelled
from spec sections 3 and 4.F (`PoolPortion` is "either an integer count or a
fraction in (0,1]; `of(total)` returns `max(1, round(total*frac))` or
`min(count, total)`"; precedence TASK_COUNT sorts by ascending task count
with ties by agent id, UPTIME by descending uptime).  Fractions are modelled
as rationals `num/den` and `round` as Python 3 round-half-to-even. -/

/-- Modelled from the spec: Python 3 `round` on the rational `num/den`
(half-to-even). -/
def roundHalfToEven (num den : Nat) : Nat :=
  let q := num / den
  let r := num % den
  if 2 * r < den then q
  else if den < 2 * r then q + 1
  else if q % 2 = 0 then q else q + 1

/-- Modelled from the spec: `PoolPortion` (settings.py is not under src/). -/
inductive PoolPortion where
  | count (n : Nat)
  | fraction (num den : Nat)
deriving Repr, DecidableEq

/-- Modelled from the spec: `PoolPortion.of(total)`. -/
def PoolPortion.of : PoolPortion → Nat → Nat
  | .count n, total => min n total
  | .fraction num den, total => max 1 (roundHalfToEven (num * total) den)

/-- Modelled from the spec: drain-ordering precedence (spelling from the
repository's tests). -/
inductive MigrationPrecendence where
  | task_count
  | uptime
deriving Repr, DecidableEq

/-- Modelled from the spec: the sort key of each precedence, expressed as the
total `Bool`-valued order used by the stable sort.  TASK_COUNT: ascending
`(task_count, agent_id)`; UPTIME: descending uptime. -/
def MigrationPrecendence.sortLe : MigrationPrecendence →
    ClusterNodeMetadata → ClusterNodeMetadata → Bool
  | .task_count, a, b =>
    decide (a.agent.task_count < b.agent.task_count) ||
      (a.agent.task_count == b.agent.task_count && decide (a.agent.agent_id ≤ b.agent.agent_id))
  | .uptime, a, b => decide (b.instance_meta.uptime ≤ a.instance_meta.uptime)

/-- Modelled from the spec: the `WorkerSetup` configuration bundle. -/
structure WorkerSetup where
  rate : PoolPortion
  prescaling : Option PoolPortion
  precedence : MigrationPrecendence
  bootstrap_wait : Nat
  bootstrap_timeout : Nat
  disable_autoscaling : Bool
  expected_duration : Nat
  health_check_interval : Nat
  ignore_pod_health : Bool
deriving Repr, DecidableEq

/-! ## `_drain_node_selection` (worker.py lines 112-158) -/

/-- A stable sort modelling Python's `sorted` with a key function (stable:
elements whose keys compare equal keep their input order, because `le` is a
total preorder and insertion places a new element before equals). -/
def insertSorted (le : α → α → Bool) (x : α) : List α → List α
  | [] => [x]
  | y :: ys => if le x y then x :: y :: ys else y :: insertSorted le x ys

def stableSort (le : α → α → Bool) : List α → List α
  | [] => []
  | x :: xs => insertSorted le x (stableSort le xs)

/-- The chunk decomposition performed by
`for i in range(0, len(selected), chunk): selected[i : i + chunk]`. -/
def chunkList (c : Nat) (l : List α) : List (List α) :=
  match c, l with
  | 0, _ => []
  | _ + 1, [] => []
  | c + 1, x :: xs => (x :: xs).take (c + 1) :: chunkList (c + 1) ((x :: xs).drop (c + 1))
termination_by l.length
decreasing_by
  simp only [List.drop_succ_cons, List.length_cons, List.length_drop]
  omega

/-- Effects performed by `_drain_node_selection` (frame model). -/
inductive DEffect where
  | submitForDraining (node : ClusterNodeMetadata)
  | gaugeSet (uptime_seconds : Nat)
  | counterCount
  | sleep (seconds : Nat)
  | monitorCall (chunk : List ClusterNodeMetadata)
  | timerStart
  | timerStop
deriving Repr, DecidableEq

/-- Environment of `_drain_node_selection`: the node list returned by
`manager.get_node_metadatas(AWS_RUNNING_STATES)` and, for each chunk ordinal,
the `Bool` that the `_monitor_pool_health` call for that chunk returns (the
monitor itself is modelled separately above and always returns a boolean). -/
structure DrainEnv where
  nodes : List ClusterNodeMetadata
  monitorOk : Nat → Bool

/-- Effects of one iteration of the chunk loop body (worker.py lines
133-148), up to and including the `_monitor_pool_health` call: per-node
submission, uptime gauge and drain counter, then the bootstrap-wait sleep,
then the monitor call on the chunk. -/
def chunkEffects (setup : WorkerSetup) (ch : List ClusterNodeMetadata) : List DEffect :=
  (ch.flatMap fun node =>
    [DEffect.submitForDraining node, DEffect.gaugeSet node.instance_meta.uptime,
      DEffect.counterCount]) ++
    [DEffect.sleep setup.bootstrap_wait, DEffect.monitorCall ch]

/-- The chunk loop: `j` is the chunk ordinal.  On a failed health check the
job timer is stopped and the loop returns `False`; after the last chunk the
timer is stopped and it returns `True`. -/
def drainChunksRun (env : DrainEnv) (setup : WorkerSetup) :
    List (List ClusterNodeMetadata) → Nat → Bool × List DEffect
  | [], _ => (true, [DEffect.timerStop])
  | ch :: rest, j =>
    let effs := chunkEffects setup ch
    if env.monitorOk j then
      let r := drainChunksRun env setup rest (j + 1)
      (r.1, effs ++ r.2)
    else
      (false, effs ++ [DEffect.timerStop])

/-- `_drain_node_selection(manager, selector, worker_setup)`.  The chunk size
is `worker_setup.rate.of(len(nodes))` — computed from the full node list
before filtering by the selector.  A zero chunk size makes the source's
`range(0, len(selected), chunk)` raise `ValueError`, modelled as `none`. -/
def drain_node_selection (env : DrainEnv) (selector : ClusterNodeMetadata → Bool)
    (setup : WorkerSetup) : Option (Bool × List DEffect) :=
  let nodes := env.nodes
  let selected := stableSort setup.precedence.sortLe (nodes.filter selector)
  if selected.isEmpty then some (true, [])
  else
    let chunk := setup.rate.of nodes.length
    if chunk = 0 then none
    else
      let r := drainChunksRun env setup (chunkList chunk selected) 0
      some (r.1, DEffect.timerStart :: r.2)

/-! ## `event_migration_worker` (worker.py lines 186-237)

Collaborators are oracles: `acquireOk` is the boolean returned by
`pool_lock.acquire(timeout=worker_setup.expected_duration)` (a
`multiprocessing` lock acquire returns `False` on timeout, it does not
raise); `monitorOk` is the result of the initial `_monitor_pool_health`
call; `drainOk` the result of `limit_function_runtime(_drain_node_selection,
expected_duration)`.  The pre-scaling arithmetic (floating-point mean of
node weights) is abstracted by the `prescaledCapacity` oracle. -/

structure EventEnv where
  now : Nat
  acquireOk : Bool
  monitorOk : Bool
  drainOk : Bool
  prescaledCapacity : Nat

inductive EvEffect where
  | setLabelSelectors
  | reloadState (load_pods_info : Bool)
  | lockAcquire (timeout : Nat)
  | disableAutoscaling (untilTime : Nat)
  | getNodeMetadatas
  | modifyTargetCapacity (capacity : Nat)
  | monitorCall
  | drainSelectionCall (budget : Nat)
  | lockRelease
  | enableAutoscaling
deriving Repr, DecidableEq

inductive EvOutcome where
  | ok
  | nodeMigrationError
deriving Repr, DecidableEq

/-- `event_migration_worker(migration_event, worker_setup, pool_lock)`.

The embedding mirrors the source faithfully on the decisive point: the
boolean returned by `pool_lock.acquire(timeout=...)` is bound and then
discarded (worker.py line 198 ignores the return value), and
`pool_lock_acquired` is set to `True` unconditionally afterwards, so the
`finally` block always releases the lock and the body always proceeds to
the `disable_autoscaling` branch. -/
def event_migration_worker (env : EventEnv) (setup : WorkerSetup) : EvOutcome × List EvEffect :=
  let preTry := [EvEffect.setLabelSelectors, EvEffect.reloadState (!setup.ignore_pod_health)]
  let _acquired_within_timeout := env.acquireOk
  let pool_lock_acquired := true
  let tryBody :=
    [EvEffect.lockAcquire setup.expected_duration] ++
    (if setup.disable_autoscaling then
      [EvEffect.disableAutoscaling (env.now + setup.expected_duration)] else []) ++
    (match setup.prescaling with
      | some _ => [EvEffect.getNodeMetadatas, EvEffect.modifyTargetCapacity env.prescaledCapacity]
      | none => []) ++
    [EvEffect.monitorCall]
  let (outcome, bodyEffs) :=
    if !env.monitorOk then (EvOutcome.nodeMigrationError, tryBody)
    else if !env.drainOk then
      (EvOutcome.nodeMigrationError, tryBody ++ [EvEffect.drainSelectionCall setup.expected_duration])
    else (EvOutcome.ok, tryBody ++ [EvEffect.drainSelectionCall setup.expected_duration])
  let finallyEffs :=
    (if pool_lock_acquired then [EvEffect.lockRelease] else []) ++
    (if setup.disable_autoscaling then [EvEffect.enableAutoscaling] else [])
  (outcome, preTry ++ bodyEffs ++ finallyEffs)

/-! ## Draining queue (`clusterman/draining/queue.py`)

Modelled from the spec: `clusterman/draining/queue.py` is not under `src/`
(only its tests are); `Host`, the TTL cache and the per-message drain
pipeline are modelled from spec sections 3, 4.C and 4.D. -/

/-- Modelled from the spec: the `Host` message unit (spec section 3). -/
structure Host where
  instance_id : String
  ip : String
  hostname : String
  group_id : String
  sender : String
  scheduler : String
  agent_id : String
  pool : String
  receipt_handle : String
  draining_start_time : Nat
  termination_reason : String
  attempt : Nat
deriving Repr, DecidableEq

/-- Modelled from the spec: `clean_processing_hosts_cache()` "evicts entries
strictly older than `now - DRAIN_CACHE_SECONDS`" (spec section 4.C.3); the
cache maps instance ids to the `now()` timestamp at which the drain
submission seeded them.  An entry with timestamp `ts` is strictly older than
`now - T` exactly when `ts + T < now`. -/
def clean_processing_hosts_cache (now drain_cache_seconds : Nat)
    (cache : List (String × Nat)) : List (String × Nat) :=
  cache.filter fun e => !decide (e.2 + drain_cache_seconds < now)

/-- Effects of the drain pipeline on one message (frame model). -/
inductive QEffect where
  | submitHostForTermination (h : Host) (delay : Nat)
  | submitHostForDraining (h : Host) (attempt : Nat)
  | deleteDrainMessage (h : Host)
  | k8sDrainCall (agent_id : String)
  | k8sUncordonCall (agent_id : String)
  | mesosDrainCall (host_and_ip : String)
  | seedCache (instance_id : String)
deriving Repr, DecidableEq

/-- Oracles consumed while processing one drain message. -/
structure DrainQueueEnv where
  now : Nat
  /-- result of `k8s_drain(client, agent_id, force=False)` -/
  k8sDrainOk : Bool
  /-- result of `host_from_instance_id(receipt_handle, instance_id)` -/
  resolved : Option Host
  /-- `DEFAULT_FORCE_TERMINATION` -/
  forceTermination : Bool
  /-- `MAX_DRAINING_TIME` in seconds -/
  maxDrainingTime : Nat

/-- Modelled from the spec: one `process_drain_queue` message (spec section
4.D steps 1-7).  Receive, hostname guard, dedupe against the TTL cache,
orphan re-resolution for kubernetes hosts with empty `agent_id`, expiry, and
finally the drain step (mesos: drain then forward with the default 90s
delay; kubernetes: `k8s_drain` then forward with delay 0 on `True` or
resubmit with `attempt+1` on `False`), seeding the cache and deleting the
originating message. -/
def process_drain_queue (env : DrainQueueEnv) (cache : List String) :
    Option Host → List QEffect
  | none => []
  | some host =>
    if host.hostname = "" then
      [QEffect.submitHostForTermination host 0, QEffect.deleteDrainMessage host]
    else if host.instance_id ∈ cache then
      [QEffect.deleteDrainMessage host]
    else if host.scheduler = "kubernetes" && host.agent_id = "" then
      match env.resolved with
      | none => [QEffect.deleteDrainMessage host]
      | some fresh =>
        if fresh.agent_id = "" then
          [QEffect.submitHostForTermination host 0, QEffect.deleteDrainMessage host]
        else
          [QEffect.submitHostForDraining fresh (host.attempt + 1),
            QEffect.deleteDrainMessage host]
    else if env.maxDrainingTime < env.now - host.draining_start_time then
      if host.scheduler = "kubernetes" then
        if env.forceTermination then
          [QEffect.submitHostForTermination host 0, QEffect.deleteDrainMessage host]
        else
          [QEffect.k8sUncordonCall host.agent_id, QEffect.deleteDrainMessage host]
      else
        [QEffect.submitHostForTermination host 0, QEffect.deleteDrainMessage host]
    else if host.scheduler = "kubernetes" then
      QEffect.k8sDrainCall host.agent_id ::
        (if env.k8sDrainOk then [QEffect.submitHostForTermination host 0]
          else [QEffect.submitHostForDraining host (host.attempt + 1)]) ++
        [QEffect.seedCache host.instance_id, QEffect.deleteDrainMessage host]
    else
      [QEffect.mesosDrainCall (host.hostname ++ "|" ++ host.ip),
        QEffect.submitHostForTermination host 90,
        QEffect.seedCache host.instance_id, QEffect.deleteDrainMessage host]

/-! ## Condition model (`clusterman/migration/event.py`)

Modelled from the spec: `clusterman/migration/event.py` is not under `src/`
(only its tests are).  `MigrationCondition`, its parser `from_dict` and its
serializer `to_dict` are modelled from spec sections 3 and 4.A: targets are
parsed per trait (kernel → semver, lsbrelease → PEP440-style release
numbers, instance_type → comma-separated list of lowercase known instance
types, uptime → seconds with `Nd`/`Nh` suffix support); `IN`/`NOTIN` only
with the list-valued trait, ordered operators only with ordered targets.
Strings here are modelled as `List Char`. -/

def digitChar (d : Nat) : Char := Char.ofNat (48 + d)

def charDigit? (c : Char) : Option Nat :=
  if 48 ≤ c.toNat ∧ c.toNat ≤ 57 then some (c.toNat - 48) else none

/-- Base-10 digits of `n`, least significant first, with explicit fuel
(`fuel = n` is always enough). -/
def natDigitsRev : Nat → Nat → List Nat
  | 0, _ => []
  | fuel + 1, n => if n = 0 then [] else n % 10 :: natDigitsRev fuel (n / 10)

/-- Decimal rendering of a natural number (Python `str(n)`). -/
def natToChars (n : Nat) : List Char :=
  if n = 0 then ['0'] else ((natDigitsRev n n).reverse).map digitChar

def digitsVal (l : List Nat) : Nat := l.foldl (fun a d => 10 * a + d) 0

def ofDigitsRev (l : List Nat) : Nat := l.foldr (fun d a => 10 * a + d) 0

def charDigits? : List Char → Option (List Nat)
  | [] => some []
  | c :: cs =>
    match charDigit? c, charDigits? cs with
    | some d, some ds => some (d :: ds)
    | _, _ => none

/-- Decimal parse of a nonempty digit string (Python `int(s)`). -/
def parseNatChars? : List Char → Option Nat
  | [] => none
  | c :: cs => (charDigits? (c :: cs)).map digitsVal

/-- Join string parts with a separator character. -/
def joinSep (sep : Char) : List (List Char) → List Char
  | [] => []
  | [p] => p
  | p :: ps => p ++ sep :: joinSep sep ps

/-- Split a string at every occurrence of the separator (Python
`s.split(sep)`): always returns at least one part. -/
def splitSep (sep : Char) : List Char → List (List Char)
  | [] => [[]]
  | c :: cs =>
    match splitSep sep cs with
    | [] => [[]]
    | p :: ps => if c = sep then [] :: p :: ps else (c :: p) :: ps

/-- Split a string at the first occurrence of the separator, if any. -/
def splitFirst (sep : Char) : List Char → List Char × Option (List Char)
  | [] => ([], none)
  | c :: cs =>
    if c = sep then ([], some cs)
    else
      let r := splitFirst sep cs
      (c :: r.1, r.2)

/-- Modelled from the spec: a parsed semver kernel version
(`major.minor.patch` with optional `-prerelease` and `+build`). -/
structure SemverInfo where
  major : Nat
  minor : Nat
  patch : Nat
  prerelease : List Char
  build : List Char
deriving Repr, DecidableEq

def semverToChars (v : SemverInfo) : List Char :=
  joinSep '.' [natToChars v.major, natToChars v.minor, natToChars v.patch] ++
    (if v.prerelease = [] then [] else '-' :: v.prerelease) ++
    (if v.build = [] then [] else '+' :: v.build)

def semverParse? (s : List Char) : Option SemverInfo :=
  let pb := splitFirst '+' s
  let cp := splitFirst '-' pb.1
  match splitSep '.' cp.1 with
  | [a, b, c] =>
    match parseNatChars? a, parseNatChars? b, parseNatChars? c with
    | some major, some minor, some patch =>
      match cp.2, pb.2 with
      | some [], _ => none
      | _, some [] => none
      | preOpt, buildOpt => some ⟨major, minor, patch, preOpt.getD [], buildOpt.getD []⟩
    | _, _, _ => none
  | _ => none

/-- PEP440-style release serialization: dotted decimal components. -/
def pepToChars (v : List Nat) : List Char := joinSep '.' (v.map natToChars)

def partsNats? : List (List Char) → Option (List Nat)
  | [] => some []
  | p :: ps =>
    match parseNatChars? p, partsNats? ps with
    | some n, some ns => some (n :: ns)
    | _, _ => none

def pepParse? (s : List Char) : Option (List Nat) := partsNats? (splitSep '.' s)

/-- Uptime target: seconds, accepting a `d` (days) or `h` (hours) suffix. -/
def uptimeParse? (s : List Char) : Option Nat :=
  match s.reverse with
  | [] => none
  | c :: rest =>
    if c = 'd' then (parseNatChars? rest.reverse).map (fun n => n * 86400)
    else if c = 'h' then (parseNatChars? rest.reverse).map (fun n => n * 3600)
    else parseNatChars? s

/-- Modelled from the spec: a representative finite registry of known AWS
instance type names (the real registry is the full AWS catalogue; parsing
rejects `IN` targets containing names outside it). -/
def knownInstanceTypes : List (List Char) :=
  ["m5.4xlarge".data, "r5.2xlarge".data, "c5.9xlarge".data, "m6a.8xlarge".data]

def instanceTypesParse? (s : List Char) : Option (List (List Char)) :=
  let parts := (splitSep ',' s).map (List.map Char.toLower)
  if parts.all (fun p => knownInstanceTypes.contains p) then some parts else none

inductive ConditionOperator where
  | LT | LE | EQ | NE | GE | GT | IN | NOTIN
deriving Repr, DecidableEq

def ConditionOperator.serialize : ConditionOperator → List Char
  | .LT => "lt".data
  | .LE => "le".data
  | .EQ => "eq".data
  | .NE => "ne".data
  | .GE => "ge".data
  | .GT => "gt".data
  | .IN => "in".data
  | .NOTIN => "notin".data

def operatorParse? (s : List Char) : Option ConditionOperator :=
  if s = "lt".data then some .LT
  else if s = "le".data then some .LE
  else if s = "eq".data then some .EQ
  else if s = "ne".data then some .NE
  else if s = "ge".data then some .GE
  else if s = "gt".data then some .GT
  else if s = "in".data then some .IN
  else if s = "notin".data then some .NOTIN
  else none

def listOp : ConditionOperator → Bool
  | .IN | .NOTIN => true
  | _ => false

def orderedOp : ConditionOperator → Bool
  | .LT | .LE | .GE | .GT => true
  | _ => false

/-- Modelled from the spec: `MigrationCondition` with its per-trait target
type. -/
inductive MigrationCondition where
  | kernel (op : ConditionOperator) (target : SemverInfo)
  | lsbrelease (op : ConditionOperator) (target : List Nat)
  | instance_type (op : ConditionOperator) (target : List (List Char))
  | uptime (op : ConditionOperator) (target : Nat)
deriving Repr, DecidableEq

structure ConditionDict where
  trait : List Char
  operator : List Char
  target : List Char
deriving Repr, DecidableEq

/-- Modelled from the spec: `MigrationCondition.to_dict` (serialize). -/
def MigrationCondition.to_dict : MigrationCondition → ConditionDict
  | .kernel op t => ⟨"kernel".data, op.serialize, semverToChars t⟩
  | .lsbrelease op t => ⟨"lsbrelease".data, op.serialize, pepToChars t⟩
  | .instance_type op t => ⟨"instance_type".data, op.serialize, joinSep ',' t⟩
  | .uptime op t => ⟨"uptime".data, op.serialize, natToChars t⟩

/-- Modelled from the spec: `MigrationCondition.from_dict` (parse), with the
operator-trait compatibility checks (`ValueError` modelled as `none`). -/
def MigrationCondition.from_dict (d : ConditionDict) : Option MigrationCondition :=
  match operatorParse? d.operator with
  | none => none
  | some op =>
    if d.trait = "kernel".data then
      if listOp op then none else (semverParse? d.target).map (MigrationCondition.kernel op)
    else if d.trait = "lsbrelease".data then
      if listOp op then none else (pepParse? d.target).map (MigrationCondition.lsbrelease op)
    else if d.trait = "instance_type".data then
      if orderedOp op then none
      else (instanceTypesParse? d.target).map (MigrationCondition.instance_type op)
    else if d.trait = "uptime".data then
      if listOp op then none else (uptimeParse? d.target).map (MigrationCondition.uptime op)
    else none

/-- A valid condition: operator compatible with the trait and target
well-formed (nonempty version/list, prerelease free of `+`, instance types
drawn from the known registry). -/
def validCondition : MigrationCondition → Bool
  | .kernel op t => !listOp op && !(t.prerelease.contains '+')
  | .lsbrelease op t => !listOp op && !t.isEmpty
  | .instance_type op t =>
    !orderedOp op && !t.isEmpty && t.all (fun p => knownInstanceTypes.contains p)
  | .uptime op _ => !listOp op

/-! ## Concrete inputs used by the witnesses -/

/-- A monitor environment in which the pool becomes healthy at the first
poll. -/
def pollEnvW : PollEnv := ⟨fun k => k, fun _ _ => "", fun _ => true, fun _ => true⟩

/-- A monitor environment whose clock is already past any small timeout. -/
def pollEnvLate : PollEnv := ⟨fun _ => 100, fun _ _ => "", fun _ => true, fun _ => true⟩

def nodeW (i tc up : Nat) : ClusterNodeMetadata :=
  ⟨⟨toString i, tc⟩, ⟨toString i, up, toString i, 1⟩⟩

/-- Six-node pool of spec scenario 1 (uptime happy path). -/
def drainEnvW : DrainEnv :=
  ⟨[nodeW 1 30 20000, nodeW 2 28 19000, nodeW 3 26 18000,
    nodeW 4 24 17000, nodeW 5 22 9000, nodeW 6 20 8000], fun _ => true⟩

/-- Same pool, health monitor failing from the first chunk. -/
def drainEnvFail : DrainEnv := ⟨drainEnvW.nodes, fun _ => false⟩

def setupW : WorkerSetup :=
  ⟨PoolPortion.count 2, none, MigrationPrecendence.task_count, 1, 2, false, 3, 1, false⟩

def selectorW (n : ClusterNodeMetadata) : Bool := decide (10000 < n.instance_meta.uptime)

def hostW : Host :=
  ⟨"i12345", "10.1.1.1", "host1", "sfr1", "mmb", "kubernetes", "agt123", "default",
    "aaaaa", 1000, "node migration", 1⟩

def hostOrphanW : Host :=
  ⟨"i12345678912", "10.1.1.1", "host1", "sfr1", "mmb", "kubernetes", "", "default",
    "aaaaa", 1000, "spot interruption", 1⟩

def freshHostW : Host :=
  ⟨"i12345678912", "10.1.1.1", "host1", "sfr1", "mmb", "kubernetes", "agt123", "default",
    "aaaaa", 1000, "spot interruption", 1⟩

def drainQueueEnvW : DrainQueueEnv := ⟨2000, false, some freshHostW, false, 21600⟩

/-! # Theorems -/

/-- Claim C8: when `_monitor_pool_health` is called with `drained` equal to
the empty collection, the `draining_happened` latch becomes true at the
first poll (and at every poll), for every behavior of the manager and
connector: the short-circuiting `any` over an empty collection is false, so
`draining_happened or not any(...)` is true. -/
theorem monitor_empty_drained_latches (env : PollEnv) (ignore_pod_health : Bool)
    (k : Nat) (st : MonitorState) :
    (monitorStep env [] ignore_pod_health k st).draining_happened = true ∧
    (stateAfter env [] ignore_pod_health 1).draining_happened = true := by
  constructor
  · simp [monitorStep]
  · simp [stateAfter, monitorStep, initMonitorState]

/-- Claim C10: if `_monitor_pool_health` is entered with the timeout already
at or before the current time, the `while time.time() < timeout` guard fails
at once: the function returns `False` after zero polls with an empty effect
trace — no `reload_state`, no `get_agent_metadata`, no
`is_capacity_satisfied`, no `has_enough_capacity_for_pods`, no sleep. -/
theorem monitor_immediate_timeout_no_effects (env : PollEnv) (timeout interval : Nat)
    (drained : List ClusterNodeMetadata) (ignore_pod_health : Bool) (fuel : Nat)
    (h : timeout ≤ env.timeAt 0) :
    monitor_pool_health env timeout drained interval ignore_pod_health fuel =
      (some (false, 0), []) := by
  unfold monitor_pool_health
  cases fuel <;> simp [monitorRun, h]

theorem monitor_immediate_timeout_no_effects_witness :
    (50 : Nat) ≤ pollEnvLate.timeAt 0 ∧
      monitor_pool_health pollEnvLate 50 [] 1 false 10 = (some (false, 0), []) :=
  ⟨by decide, monitor_immediate_timeout_no_effects pollEnvLate 50 1 [] false 10 (by decide)⟩

/-- Claim C1 (code bug): `event_migration_worker` ignores the boolean that
`pool_lock.acquire(timeout=worker_setup.expected_duration)` returns
(worker.py line 198) and sets `pool_lock_acquired = True` unconditionally.
A `multiprocessing` lock acquire returns `False` on timeout instead of
raising, so when the pool lock cannot be acquired within
`expected_duration` the worker raises no `NodeMigrationError`, proceeds to
call `disable_autoscaling`, and its `finally` block even releases the lock
it never obtained.  This theorem evaluates the embedding at such an input:
`acquireOk = false` models the timed-out acquire, yet the run completes
with outcome `ok` and the trace contains the `disableAutoscaling` call. -/
theorem event_worker_lock_timeout_proceeds :
    event_migration_worker ⟨1000, false, true, true, 0⟩
        ⟨PoolPortion.count 1, none, MigrationPrecendence.task_count, 1, 2, true, 1, 1, false⟩ =
      (EvOutcome.ok,
        [EvEffect.setLabelSelectors, EvEffect.reloadState true, EvEffect.lockAcquire 1,
          EvEffect.disableAutoscaling 1001, EvEffect.monitorCall,
          EvEffect.drainSelectionCall 1, EvEffect.lockRelease, EvEffect.enableAutoscaling]) ∧
    EvEffect.disableAutoscaling 1001 ∈
      (event_migration_worker ⟨1000, false, true, true, 0⟩
        ⟨PoolPortion.count 1, none, MigrationPrecendence.task_count, 1, 2, true, 1, 1, false⟩).2 := by
  constructor
  · rfl
  · decide

/-- Claim C3 (counterexample): the claim asserts that an entry timestamped
exactly at `now - DRAIN_CACHE_SECONDS` is evicted.  Under the spec's
operative eviction rule — evict exactly the entries *strictly* older than
`now - DRAIN_CACHE_SECONDS` (section 4.C.3) — the boundary entry is kept:
with `now = 120` and `DRAIN_CACHE_SECONDS = 60`, the entry timestamped 60
survives `clean_processing_hosts_cache`. -/
theorem clean_cache_boundary_entry_kept :
    clean_processing_hosts_cache 120 60 [("i123", 60)] = [("i123", 60)] := by
  decide

/-- Claim C3 (amended): `clean_processing_hosts_cache` evicts exactly the
entries strictly older than `now - DRAIN_CACHE_SECONDS` (those with
`timestamp + DRAIN_CACHE_SECONDS < now`); an entry timestamped exactly at
`now - DRAIN_CACHE_SECONDS` is kept, and an entry timestamped at
`now - DRAIN_CACHE_SECONDS + 1s` is kept. -/
theorem clean_cache_evicts_strictly_older (now drain_cache_seconds : Nat)
    (cache : List (String × Nat)) :
    (∀ e ∈ cache,
      (e ∈ clean_processing_hosts_cache now drain_cache_seconds cache ↔
        now ≤ e.2 + drain_cache_seconds)) ∧
    (∀ e ∈ cache, e.2 + drain_cache_seconds = now →
      e ∈ clean_processing_hosts_cache now drain_cache_seconds cache) ∧
    (∀ e ∈ cache, e.2 + drain_cache_seconds = now + 1 →
      e ∈ clean_processing_hosts_cache now drain_cache_seconds cache) := by
  refine ⟨fun e he => ?_, fun e he hb => ?_, fun e he hb => ?_⟩
  · simp only [clean_processing_hosts_cache, List.mem_filter, he, true_and,
      Bool.not_eq_true', decide_eq_false_iff_not]
    omega
  · simp only [clean_processing_hosts_cache, List.mem_filter, he, true_and,
      Bool.not_eq_true', decide_eq_false_iff_not]
    omega
  · simp only [clean_processing_hosts_cache, List.mem_filter, he, true_and,
      Bool.not_eq_true', decide_eq_false_iff_not]
    omega

theorem clean_cache_evicts_strictly_older_witness :
    ("i456", 60) ∈ clean_processing_hosts_cache 120 60 [("i123", 59), ("i456", 60)] :=
  ((clean_cache_evicts_strictly_older 120 60 [("i123", 59), ("i456", 60)]).1
    ("i456", 60) (by decide)).mpr (by decide)

/-- Helper: each `x = x or ...` latch update is monotone in one step. -/
theorem monitorStep_latch_mono (env : PollEnv) (d : List ClusterNodeMetadata) (i : Bool)
    (k : Nat) (st : MonitorState) :
    (st.draining_happened = true → (monitorStep env d i k st).draining_happened = true) ∧
    (st.capacity_satisfied = true → (monitorStep env d i k st).capacity_satisfied = true) ∧
    (st.pods_healthy = true → (monitorStep env d i k st).pods_healthy = true) := by
  refine ⟨fun h => ?_, fun h => ?_, fun h => ?_⟩ <;> simp [monitorStep, h]

/-- Helper: each latch, once true after some poll, stays true after every
later poll. -/
theorem stateAfter_latch_mono (env : PollEnv) (d : List ClusterNodeMetadata) (i : Bool)
    (a b : Nat) (hab : a ≤ b) :
    ((stateAfter env d i a).draining_happened = true →
      (stateAfter env d i b).draining_happened = true) ∧
    ((stateAfter env d i a).capacity_satisfied = true →
      (stateAfter env d i b).capacity_satisfied = true) ∧
    ((stateAfter env d i a).pods_healthy = true →
      (stateAfter env d i b).pods_healthy = true) := by
  induction b, hab using Nat.le_induction with
  | base => exact ⟨id, id, id⟩
  | succ b _ ih =>
    have hm := monitorStep_latch_mono env d i b (stateAfter env d i b)
    exact ⟨fun h => hm.1 (ih.1 h), fun h => hm.2.1 (ih.2.1 h), fun h => hm.2.2 (ih.2.2 h)⟩

/-- Helper: a `True` return happens at the first poll after which all three
latches hold. -/
theorem monitorRun_true_first (env : PollEnv) (t intv : Nat)
    (d : List ClusterNodeMetadata) (i : Bool) :
    ∀ (fuel k n : Nat),
      (∀ m, m ≤ k → ¬ allLatches (stateAfter env d i m)) →
      (monitorRun env t d intv i fuel k (stateAfter env d i k)).1 = some (true, n) →
      allLatches (stateAfter env d i n) ∧ ∀ m, m < n → ¬ allLatches (stateAfter env d i m) := by
  intro fuel
  induction fuel with
  | zero =>
    intro k n hk h
    by_cases ht : t ≤ env.timeAt k <;> simp [monitorRun, ht] at h
  | succ fuel ih =>
    intro k n hk h
    by_cases ht : t ≤ env.timeAt k
    · simp [monitorRun, ht] at h
    · simp only [monitorRun, if_neg ht] at h
      by_cases hb : ((monitorStep env d i k (stateAfter env d i k)).draining_happened &&
          (monitorStep env d i k (stateAfter env d i k)).capacity_satisfied &&
          (monitorStep env d i k (stateAfter env d i k)).pods_healthy) = true
      · have hall : allLatches (monitorStep env d i k (stateAfter env d i k)) := by
          simpa [allLatches, Bool.and_eq_true, and_assoc] using hb
        simp only [hb, if_true] at h
        have hn : n = k + 1 := by
          simpa using h.symm
        subst hn
        exact ⟨hall, fun m hm => hk m (by omega)⟩
      · have hnall : ¬ allLatches (monitorStep env d i k (stateAfter env d i k)) := by
          intro hc
          exact hb (by simp [allLatches, Bool.and_eq_true, and_assoc] at hc ⊢; exact hc)
        rw [Bool.not_eq_true] at hb
        simp only [hb, Bool.false_eq_true, if_false] at h
        have hk2 : ∀ m, m ≤ k + 1 → ¬ allLatches (stateAfter env d i m) := by
          intro m hm
          rcases Nat.lt_or_ge m (k + 1) with hlt | hge
          · exact hk m (by omega)
          · have : m = k + 1 := by omega
            subst this
            exact fun hc => hnall (by simpa [stateAfter] using hc)
        exact ih (k + 1) n hk2 (by simpa [stateAfter] using h)

/-- Helper: a `False` return only happens at a loop check whose observed
time is at or past the timeout. -/
theorem monitorRun_false_timeout (env : PollEnv) (t intv : Nat)
    (d : List ClusterNodeMetadata) (i : Bool) :
    ∀ (fuel k : Nat) (st : MonitorState) (n : Nat),
      (monitorRun env t d intv i fuel k st).1 = some (false, n) → t ≤ env.timeAt n := by
  intro fuel
  induction fuel with
  | zero =>
    intro k st n h
    by_cases ht : t ≤ env.timeAt k <;> simp [monitorRun, ht] at h
    exact h ▸ ht
  | succ fuel ih =>
    intro k st n h
    by_cases ht : t ≤ env.timeAt k
    · simp [monitorRun, ht] at h
      exact h ▸ ht
    · simp only [monitorRun, if_neg ht] at h
      by_cases hb : ((monitorStep env d i k st).draining_happened &&
          (monitorStep env d i k st).capacity_satisfied &&
          (monitorStep env d i k st).pods_healthy) = true
      · simp [hb] at h
      · rw [Bool.not_eq_true] at hb
        simp only [hb, Bool.false_eq_true, if_false] at h
        exact ih (k + 1) (monitorStep env d i k st) n h

/-- Claim C2: in `_monitor_pool_health` each of the three flags
`draining_happened`, `capacity_satisfied`, `pods_healthy` is one-way — once
true after some poll it is true after every later poll of the same call;
the function returns `True` at the first poll after which all three hold
(so a `True` result implies all three latches held in the same poll), and a
`False` return only happens once the observed time is at or past the
timeout. -/
theorem monitor_latches_one_way_first_success (env : PollEnv) (t intv fuel n : Nat)
    (d : List ClusterNodeMetadata) (i : Bool) (res : Bool)
    (h : (monitor_pool_health env t d intv i fuel).1 = some (res, n)) :
    (∀ a b, a ≤ b →
      ((stateAfter env d i a).draining_happened = true →
        (stateAfter env d i b).draining_happened = true) ∧
      ((stateAfter env d i a).capacity_satisfied = true →
        (stateAfter env d i b).capacity_satisfied = true) ∧
      ((stateAfter env d i a).pods_healthy = true →
        (stateAfter env d i b).pods_healthy = true)) ∧
    (res = true → allLatches (stateAfter env d i n) ∧
      ∀ m, m < n → ¬ allLatches (stateAfter env d i m)) ∧
    (res = false → t ≤ env.timeAt n) := by
  refine ⟨fun a b hab => stateAfter_latch_mono env d i a b hab, fun hres => ?_, fun hres => ?_⟩
  · subst hres
    refine monitorRun_true_first env t intv d i fuel 0 n (fun m hm => ?_) h
    have : m = 0 := by omega
    subst this
    simp [allLatches, stateAfter, initMonitorState]
  · subst hres
    exact monitorRun_false_timeout env t intv d i fuel 0 initMonitorState n h

theorem monitor_latches_one_way_first_success_witness :
    allLatches (stateAfter pollEnvW [] false 1) :=
  ((monitor_latches_one_way_first_success pollEnvW 10 1 5 1 [] false true (by decide)).2.1
    rfl).1

/-! Helper equations and facts about `chunkList`. -/

theorem chunkList_zero (l : List α) : chunkList 0 l = [] := by
  rw [chunkList.eq_def]

theorem chunkList_nil (c : Nat) : chunkList c ([] : List α) = [] := by
  cases c <;> rw [chunkList.eq_def]

theorem chunkList_cons (c : Nat) (x : α) (xs : List α) :
    chunkList (c + 1) (x :: xs) =
      (x :: xs).take (c + 1) :: chunkList (c + 1) ((x :: xs).drop (c + 1)) := by
  rw [chunkList.eq_def]

/-- The chunks of a list concatenate back to the list: no element is lost or
duplicated by the slicing loop. -/
theorem chunkList_flatten (c : Nat) (hc : 0 < c) :
    (l : List α) → (chunkList c l).flatten = l
  | [] => by simp [chunkList_nil]
  | x :: xs => by
    obtain ⟨c', rfl⟩ : ∃ c', c = c' + 1 := ⟨c - 1, by omega⟩
    rw [chunkList_cons, List.flatten_cons,
      chunkList_flatten (c' + 1) hc ((x :: xs).drop (c' + 1)), List.take_append_drop]
termination_by l => l.length
decreasing_by
  simp only [List.drop_succ_cons, List.length_drop, List.length_cons]
  omega

/-- Every chunk is nonempty and no larger than the chunk size. -/
theorem chunkList_mem_length (c : Nat) (hc : 0 < c) :
    (l : List α) → ∀ ch ∈ chunkList c l, ch ≠ [] ∧ ch.length ≤ c
  | [] => by simp [chunkList_nil]
  | x :: xs => by
    obtain ⟨c', rfl⟩ : ∃ c', c = c' + 1 := ⟨c - 1, by omega⟩
    rw [chunkList_cons]
    intro ch hch
    rcases List.mem_cons.mp hch with rfl | hmem
    · exact ⟨by simp, by simp⟩
    · exact chunkList_mem_length (c' + 1) hc ((x :: xs).drop (c' + 1)) ch hmem
termination_by l => l.length
decreasing_by
  simp only [List.drop_succ_cons, List.length_drop, List.length_cons]
  omega

/-- Every chunk except possibly the last has exactly the chunk size. -/
theorem chunkList_dropLast_length (c : Nat) (hc : 0 < c) :
    (l : List α) → ∀ ch ∈ (chunkList c l).dropLast, ch.length = c
  | [] => by simp [chunkList_nil]
  | x :: xs => by
    obtain ⟨c', rfl⟩ : ∃ c', c = c' + 1 := ⟨c - 1, by omega⟩
    rw [chunkList_cons]
    by_cases hd : (x :: xs).drop (c' + 1) = []
    · rw [hd, chunkList_nil]
      simp
    · have hne : chunkList (c' + 1) ((x :: xs).drop (c' + 1)) ≠ [] := by
        obtain ⟨y, ys, hys⟩ := List.exists_cons_of_ne_nil hd
        rw [hys, chunkList_cons]
        simp
      rw [List.dropLast_cons_of_ne_nil hne]
      intro ch hch
      rcases List.mem_cons.mp hch with rfl | hmem
      · have hle : c' + 1 ≤ (x :: xs).length := by
          by_contra hlt
          push_neg at hlt
          exact hd (List.drop_eq_nil_of_le (by omega))
        simp only [List.length_take, List.length_cons] at hle ⊢
        omega
      · exact chunkList_dropLast_length (c' + 1) hc ((x :: xs).drop (c' + 1)) ch hmem
termination_by l => l.length
decreasing_by
  simp only [List.drop_succ_cons, List.length_drop, List.length_cons]
  omega

/-- Helper: with a positive chunk size, a nonempty list has at least one
chunk. -/
theorem chunkList_length_pos (c : Nat) (hc : 0 < c) (l : List α) (hl : l ≠ []) :
    0 < (chunkList c l).length := by
  obtain ⟨x, xs, rfl⟩ := List.exists_cons_of_ne_nil hl
  obtain ⟨c', rfl⟩ : ∃ c', c = c' + 1 := ⟨c - 1, by omega⟩
  rw [chunkList_cons]
  simp

/-- Helper: when every per-chunk health check passes, the chunk loop visits
every chunk in order and returns `True`. -/
theorem drainChunksRun_all_true (env : DrainEnv) (setup : WorkerSetup)
    (hmon : ∀ j, env.monitorOk j = true) :
    ∀ (cs : List (List ClusterNodeMetadata)) (k : Nat),
      drainChunksRun env setup cs k =
        (true, cs.flatMap (chunkEffects setup) ++ [DEffect.timerStop]) := by
  intro cs
  induction cs with
  | nil => intro k; simp [drainChunksRun]
  | cons ch rest ih =>
    intro k
    simp only [drainChunksRun, hmon k, if_true, ih (k + 1)]
    simp [List.flatMap_cons, List.append_assoc]

/-- Helper: if the health check fails at chunk ordinal `j` (all earlier
checks passing), the loop stops there: it returns `False` after emitting
exactly the effects of chunks `0..j` followed by the timer stop. -/
theorem drainChunksRun_stops (env : DrainEnv) (setup : WorkerSetup) :
    ∀ (j : Nat) (cs : List (List ClusterNodeMetadata)) (k : Nat),
      (∀ i, i < j → env.monitorOk (k + i) = true) →
      env.monitorOk (k + j) = false →
      j < cs.length →
      drainChunksRun env setup cs k =
        (false, (cs.take (j + 1)).flatMap (chunkEffects setup) ++ [DEffect.timerStop]) := by
  intro j
  induction j with
  | zero =>
    intro cs k hprev hfail hlen
    cases cs with
    | nil => simp at hlen
    | cons ch rest =>
      have hf : env.monitorOk k = false := by simpa using hfail
      simp [drainChunksRun, hf]
  | succ j ih =>
    intro cs k hprev hfail hlen
    cases cs with
    | nil => simp at hlen
    | cons ch rest =>
      have h0 : env.monitorOk k = true := by simpa using hprev 0 (by omega)
      have ihrest := ih rest (k + 1)
        (fun i hi => by
          have := hprev (i + 1) (by omega)
          rwa [show k + (i + 1) = k + 1 + i by omega] at this)
        (by
          have := hfail
          rwa [show k + (j + 1) = k + 1 + j by omega] at this)
        (by simpa using Nat.lt_of_succ_lt_succ (by simpa using hlen))
      simp only [drainChunksRun, h0, if_true, ihrest, List.take_succ_cons]
      simp [List.flatMap_cons, List.append_assoc]

/-- Helper: a node submitted for draining within the effects of a list of
chunks belongs to one of those chunks. -/
theorem submit_mem_of_chunkEffects (setup : WorkerSetup) (node : ClusterNodeMetadata) :
    ∀ (cs : List (List ClusterNodeMetadata)),
      DEffect.submitForDraining node ∈ cs.flatMap (chunkEffects setup) → node ∈ cs.flatten := by
  intro cs h
  rw [List.mem_flatMap] at h
  obtain ⟨ch, hch, he⟩ := h
  rw [List.mem_flatten]
  refine ⟨ch, hch, ?_⟩
  simp only [chunkEffects, List.mem_append, List.mem_flatMap, List.mem_cons,
    List.mem_singleton, List.not_mem_nil] at he
  rcases he with ⟨a, ha, hcase⟩ | hcase
  · rcases hcase with h1 | h1 | h1 | h1 <;> first
      | (injection h1 with h2; exact h2 ▸ ha)
      | (exact absurd h1 (by simp))
  · rcases hcase with h1 | h1 | h1 <;> exact absurd h1 (by simp)

/-- Claim C6: in `_drain_node_selection` the chunk size is
`worker_setup.rate.of(len(nodes))` where `nodes` is the full
`get_node_metadatas(RUNNING_STATES)` result (the total pool size before the
selector filter, not the filtered selection size), and the sorted selection
is processed as its `chunkList`-decomposition under that size: the chunks
concatenate back to the selection, every chunk except possibly the last has
exactly that size, and every chunk is nonempty and no larger. -/
theorem drain_selection_chunk_size_total_pool (env : DrainEnv)
    (selector : ClusterNodeMetadata → Bool) (setup : WorkerSetup)
    (hmon : ∀ j, env.monitorOk j = true)
    (hsel : stableSort setup.precedence.sortLe (env.nodes.filter selector) ≠ [])
    (hc : 0 < setup.rate.of env.nodes.length) :
    drain_node_selection env selector setup =
      some (true, DEffect.timerStart ::
        ((chunkList (setup.rate.of env.nodes.length)
            (stableSort setup.precedence.sortLe (env.nodes.filter selector))).flatMap
          (chunkEffects setup) ++ [DEffect.timerStop])) ∧
    (chunkList (setup.rate.of env.nodes.length)
        (stableSort setup.precedence.sortLe (env.nodes.filter selector))).flatten =
      stableSort setup.precedence.sortLe (env.nodes.filter selector) ∧
    (∀ ch ∈ (chunkList (setup.rate.of env.nodes.length)
        (stableSort setup.precedence.sortLe (env.nodes.filter selector))).dropLast,
      ch.length = setup.rate.of env.nodes.length) ∧
    (∀ ch ∈ chunkList (setup.rate.of env.nodes.length)
        (stableSort setup.precedence.sortLe (env.nodes.filter selector)),
      ch ≠ [] ∧ ch.length ≤ setup.rate.of env.nodes.length) := by
  refine ⟨?_, chunkList_flatten _ hc _, chunkList_dropLast_length _ hc _,
    chunkList_mem_length _ hc _⟩
  simp only [drain_node_selection]
  rw [if_neg (by simpa [List.isEmpty_iff] using hsel), if_neg (by omega)]
  rw [drainChunksRun_all_true env setup hmon _ 0]

theorem drain_selection_chunk_size_total_pool_witness :
    (chunkList (setupW.rate.of drainEnvW.nodes.length)
        (stableSort setupW.precedence.sortLe (drainEnvW.nodes.filter selectorW))).flatten =
      stableSort setupW.precedence.sortLe (drainEnvW.nodes.filter selectorW) :=
  (drain_selection_chunk_size_total_pool drainEnvW selectorW setupW (fun _ => rfl)
    (by decide) (by decide)).2.1

/-- Claim C7: if the `_monitor_pool_health` call for chunk ordinal `j`
returns `False` (all earlier chunks having passed), `_drain_node_selection`
stops: its trace is exactly the effects of chunks `0..j` followed by the job
timer stop — so no node of any later chunk is submitted for draining — and
it returns `False` (a `some` result: no exception is raised). -/
theorem drain_selection_stops_on_failed_chunk (env : DrainEnv)
    (selector : ClusterNodeMetadata → Bool) (setup : WorkerSetup) (j : Nat)
    (hc : 0 < setup.rate.of env.nodes.length)
    (hj : j < (chunkList (setup.rate.of env.nodes.length)
        (stableSort setup.precedence.sortLe (env.nodes.filter selector))).length)
    (hfail : env.monitorOk j = false)
    (hprev : ∀ i, i < j → env.monitorOk i = true) :
    drain_node_selection env selector setup =
      some (false, DEffect.timerStart ::
        (((chunkList (setup.rate.of env.nodes.length)
              (stableSort setup.precedence.sortLe (env.nodes.filter selector))).take (j + 1)).flatMap
          (chunkEffects setup) ++ [DEffect.timerStop])) ∧
    (∀ node, DEffect.submitForDraining node ∈
        ((chunkList (setup.rate.of env.nodes.length)
            (stableSort setup.precedence.sortLe (env.nodes.filter selector))).take (j + 1)).flatMap
          (chunkEffects setup) →
      node ∈ ((chunkList (setup.rate.of env.nodes.length)
          (stableSort setup.precedence.sortLe (env.nodes.filter selector))).take (j + 1)).flatten) := by
  have hselne : stableSort setup.precedence.sortLe (env.nodes.filter selector) ≠ [] := by
    intro he
    rw [he, chunkList_nil] at hj
    simp at hj
  constructor
  · simp only [drain_node_selection]
    rw [if_neg (by simpa [List.isEmpty_iff] using hselne), if_neg (by omega)]
    rw [drainChunksRun_stops env setup j _ 0 (fun i hi => by simpa using hprev i hi)
      (by simpa using hfail) hj]
  · intro node h
    exact submit_mem_of_chunkEffects setup node _ h

theorem drain_selection_stops_on_failed_chunk_witness :
    drain_node_selection drainEnvFail selectorW setupW =
      some (false, DEffect.timerStart ::
        (((chunkList (setupW.rate.of drainEnvFail.nodes.length)
              (stableSort setupW.precedence.sortLe (drainEnvFail.nodes.filter selectorW))).take 1).flatMap
          (chunkEffects setupW) ++ [DEffect.timerStop])) :=
  (drain_selection_stops_on_failed_chunk drainEnvFail selectorW setupW 0 (by decide)
    (chunkList_length_pos _ (by decide) _ (by decide)) rfl
    (fun i hi => absurd hi (by omega))).1

/-- Claim C4: for a kubernetes host in the drain pipeline (non-empty
hostname, non-empty agent id, not deduplicated, not expired): if `k8s_drain`
returns `True` the host is forwarded to the termination queue with
`delay=0` and the drain message is deleted; if it returns `False` the host
is resubmitted for draining with `attempt+1` and the original drain message
is deleted — every resubmission carries `attempt` exactly one larger than
the received message's, so attempts of successive drain messages for the
same instance are strictly increasing. -/
theorem drain_queue_k8s_forward_or_retry (env : DrainQueueEnv) (cache : List String)
    (host : Host)
    (hname : host.hostname ≠ "")
    (hdedupe : host.instance_id ∉ cache)
    (hsched : host.scheduler = "kubernetes")
    (hagent : host.agent_id ≠ "")
    (hexp : env.now - host.draining_start_time ≤ env.maxDrainingTime) :
    (env.k8sDrainOk = true →
      process_drain_queue env cache (some host) =
        [QEffect.k8sDrainCall host.agent_id, QEffect.submitHostForTermination host 0,
          QEffect.seedCache host.instance_id, QEffect.deleteDrainMessage host]) ∧
    (env.k8sDrainOk = false →
      process_drain_queue env cache (some host) =
        [QEffect.k8sDrainCall host.agent_id,
          QEffect.submitHostForDraining host (host.attempt + 1),
          QEffect.seedCache host.instance_id, QEffect.deleteDrainMessage host]) ∧
    (∀ h a, QEffect.submitHostForDraining h a ∈ process_drain_queue env cache (some host) →
      a = host.attempt + 1 ∧ host.attempt < a) := by
  have hgoal : process_drain_queue env cache (some host) =
      QEffect.k8sDrainCall host.agent_id ::
        (if env.k8sDrainOk then [QEffect.submitHostForTermination host 0]
          else [QEffect.submitHostForDraining host (host.attempt + 1)]) ++
        [QEffect.seedCache host.instance_id, QEffect.deleteDrainMessage host] := by
    simp only [process_drain_queue, if_neg hname, if_neg hdedupe]
    rw [if_neg (by simp [hagent]), if_neg (by omega), if_pos hsched]
  refine ⟨fun hk => ?_, fun hk => ?_, fun h a hmem => ?_⟩
  · rw [hgoal, hk]
    rfl
  · rw [hgoal, hk]
    rfl
  · rw [hgoal] at hmem
    cases hk : env.k8sDrainOk <;> rw [hk] at hmem <;> simp at hmem
    exact ⟨hmem.2, hmem.2 ▸ Nat.lt_succ_self _⟩

theorem drain_queue_k8s_forward_or_retry_witness :
    process_drain_queue drainQueueEnvW [] (some hostW) =
      [QEffect.k8sDrainCall hostW.agent_id,
        QEffect.submitHostForDraining hostW (hostW.attempt + 1),
        QEffect.seedCache hostW.instance_id, QEffect.deleteDrainMessage hostW] :=
  ((drain_queue_k8s_forward_or_retry drainQueueEnvW [] hostW (by decide) (by decide)
    rfl (by decide) (by decide)).2.1) rfl

/-- Claim C5: for a kubernetes host received from the drain queue with empty
`agent_id` (non-empty hostname, not deduplicated), the pipeline re-resolves
the instance via `host_from_instance_id` and takes exactly one of three
actions: resolution `None` — the drain message is deleted and nothing else
happens; resolution with still-empty `agent_id` — the host is forwarded to
the termination queue with `delay=0` and the drain message deleted;
resolution with a non-empty `agent_id` — the resolved host is resubmitted
for draining with `attempt = host.attempt + 1` and the original drain
message deleted. -/
theorem drain_queue_orphan_three_way (env : DrainQueueEnv) (cache : List String)
    (host : Host)
    (hname : host.hostname ≠ "")
    (hdedupe : host.instance_id ∉ cache)
    (hsched : host.scheduler = "kubernetes")
    (hagent : host.agent_id = "") :
    (env.resolved = none →
      process_drain_queue env cache (some host) = [QEffect.deleteDrainMessage host]) ∧
    (∀ fresh, env.resolved = some fresh → fresh.agent_id = "" →
      process_drain_queue env cache (some host) =
        [QEffect.submitHostForTermination host 0, QEffect.deleteDrainMessage host]) ∧
    (∀ fresh, env.resolved = some fresh → fresh.agent_id ≠ "" →
      process_drain_queue env cache (some host) =
        [QEffect.submitHostForDraining fresh (host.attempt + 1),
          QEffect.deleteDrainMessage host]) := by
  have hbranch : process_drain_queue env cache (some host) =
      match env.resolved with
      | none => [QEffect.deleteDrainMessage host]
      | some fresh =>
        if fresh.agent_id = "" then
          [QEffect.submitHostForTermination host 0, QEffect.deleteDrainMessage host]
        else
          [QEffect.submitHostForDraining fresh (host.attempt + 1),
            QEffect.deleteDrainMessage host] := by
    simp only [process_drain_queue, if_neg hname, if_neg hdedupe]
    rw [if_pos (by simp [hsched, hagent])]
  refine ⟨fun hres => ?_, fun fresh hres hfr => ?_, fun fresh hres hfr => ?_⟩
  · rw [hbranch, hres]
  · rw [hbranch, hres]
    simp [hfr]
  · rw [hbranch, hres]
    simp [hfr]

theorem drain_queue_orphan_three_way_witness :
    process_drain_queue drainQueueEnvW [] (some hostOrphanW) =
      [QEffect.submitHostForDraining freshHostW (hostOrphanW.attempt + 1),
        QEffect.deleteDrainMessage hostOrphanW] :=
  ((drain_queue_orphan_three_way drainQueueEnvW [] hostOrphanW (by decide) (by decide)
    rfl rfl).2.2) freshHostW rfl (by decide)

/-! Helper lemmas for the condition round-trip: decimal digits. -/

theorem charDigit?_digitChar (d : Nat) (h : d < 10) : charDigit? (digitChar d) = some d := by
  interval_cases d <;> decide

theorem digitChar_isDigit (d : Nat) (h : d < 10) : (digitChar d).isDigit = true := by
  interval_cases d <;> decide

theorem natDigitsRev_lt (fuel : Nat) :
    ∀ (n : Nat), ∀ d ∈ natDigitsRev fuel n, d < 10 := by
  induction fuel with
  | zero => intro n d hd; simp [natDigitsRev] at hd
  | succ fuel ih =>
    intro n d hd
    by_cases hn : n = 0
    · simp [natDigitsRev, hn] at hd
    · simp only [natDigitsRev, if_neg hn, List.mem_cons] at hd
      rcases hd with rfl | hd
      · exact Nat.mod_lt _ (by omega)
      · exact ih (n / 10) d hd

theorem ofDigitsRev_natDigitsRev (fuel : Nat) :
    ∀ (n : Nat), n ≤ fuel → ofDigitsRev (natDigitsRev fuel n) = n := by
  induction fuel with
  | zero =>
    intro n hn
    have : n = 0 := by omega
    subst this
    rfl
  | succ fuel ih =>
    intro n hn
    by_cases hz : n = 0
    · subst hz; rfl
    · simp only [natDigitsRev, if_neg hz, ofDigitsRev, List.foldr_cons]
      have hrec : ofDigitsRev (natDigitsRev fuel (n / 10)) = n / 10 :=
        ih (n / 10) (by omega)
      rw [ofDigitsRev] at hrec
      rw [hrec]
      omega

theorem natDigitsRev_ne_nil (n : Nat) (hn : n ≠ 0) : natDigitsRev n n ≠ [] := by
  obtain ⟨m, rfl⟩ : ∃ m, n = m + 1 := ⟨n - 1, by omega⟩
  simp [natDigitsRev]

theorem charDigits?_map_digitChar :
    ∀ (ds : List Nat), (∀ d ∈ ds, d < 10) →
      charDigits? (ds.map digitChar) = some ds := by
  intro ds
  induction ds with
  | nil => intro _; rfl
  | cons d rest ih =>
    intro h
    simp only [List.map_cons, charDigits?,
      charDigit?_digitChar d (h d (List.mem_cons_self d rest)),
      ih (fun x hx => h x (List.mem_cons_of_mem d hx))]

theorem digitsVal_reverse (ds : List Nat) : digitsVal ds.reverse = ofDigitsRev ds := by
  rw [digitsVal, List.foldl_reverse]
  rfl

/-- Decimal round-trip: parsing the decimal rendering of `n` gives `n`. -/
theorem parseNatChars?_natToChars (n : Nat) : parseNatChars? (natToChars n) = some n := by
  by_cases hz : n = 0
  · subst hz; decide
  · have hshape : natToChars n = ((natDigitsRev n n).reverse).map digitChar := by
      simp [natToChars, hz]
    have hnil : natToChars n ≠ [] := by
      rw [hshape]
      simp only [ne_eq, List.map_eq_nil_iff, List.reverse_eq_nil_iff]
      exact natDigitsRev_ne_nil n hz
    obtain ⟨c, cs, hcons⟩ := List.exists_cons_of_ne_nil hnil
    rw [hcons]
    have hdigits : charDigits? (c :: cs) = some ((natDigitsRev n n).reverse) := by
      rw [← hcons, hshape]
      refine charDigits?_map_digitChar _ (fun d hd => ?_)
      exact natDigitsRev_lt n n d (List.mem_reverse.mp hd)
    rw [parseNatChars?, hdigits]
    have hval : digitsVal (natDigitsRev n n).reverse = n := by
      rw [digitsVal_reverse, ofDigitsRev_natDigitsRev n n (Nat.le_refl n)]
    simp [hval]

theorem mem_natToChars_isDigit (n : Nat) (c : Char) (hc : c ∈ natToChars n) :
    c.isDigit = true := by
  by_cases hz : n = 0
  · subst hz
    simp [natToChars] at hc
    subst hc
    decide
  · simp only [natToChars, if_neg hz, List.mem_map] at hc
    obtain ⟨d, hd, rfl⟩ := hc
    exact digitChar_isDigit d (natDigitsRev_lt n n d (List.mem_reverse.mp hd))

theorem isDigit_ne (c x : Char) (h : c.isDigit = true) (hx : x.isDigit = false) : c ≠ x := by
  intro he
  rw [he, hx] at h
  exact Bool.false_ne_true h

theorem natToChars_ne_nil (n : Nat) : natToChars n ≠ [] := by
  by_cases hz : n = 0
  · subst hz; decide
  · simp only [natToChars, if_neg hz, ne_eq, List.map_eq_nil_iff, List.reverse_eq_nil_iff]
    exact natDigitsRev_ne_nil n hz

/-! Helper lemmas for the condition round-trip: splitting and joining. -/

theorem splitSep_ne_nil (sep : Char) : ∀ (l : List Char), splitSep sep l ≠ [] := by
  intro l
  induction l with
  | nil => simp [splitSep]
  | cons c cs ih =>
    simp only [splitSep]
    rcases hr : splitSep sep cs with _ | ⟨p, ps⟩
    · exact absurd hr ih
    · by_cases hc : c = sep <;> simp [hc]

theorem splitSep_not_mem (sep : Char) :
    ∀ (l : List Char), sep ∉ l → splitSep sep l = [l] := by
  intro l
  induction l with
  | nil => intro _; rfl
  | cons c cs ih =>
    intro h
    have hc : c ≠ sep := fun he => h (he ▸ List.mem_cons_self c cs)
    have hcs : sep ∉ cs := fun he => h (List.mem_cons_of_mem c he)
    simp only [splitSep, ih hcs]
    simp [hc]

theorem splitSep_append (sep : Char) :
    ∀ (a rest : List Char), sep ∉ a →
      splitSep sep (a ++ sep :: rest) = a :: splitSep sep rest := by
  intro a
  induction a with
  | nil =>
    intro rest _
    simp only [List.nil_append, splitSep]
    rcases hr : splitSep sep rest with _ | ⟨p, ps⟩
    · exact absurd hr (splitSep_ne_nil sep rest)
    · simp
  | cons c a' ih =>
    intro rest h
    have hc : c ≠ sep := fun he => h (he ▸ List.mem_cons_self c a')
    have ha : sep ∉ a' := fun he => h (List.mem_cons_of_mem c he)
    simp only [List.cons_append, splitSep, List.append_eq]
    rw [ih rest ha]
    simp [hc]

theorem splitSep_joinSep (sep : Char) :
    ∀ (parts : List (List Char)), parts ≠ [] → (∀ p ∈ parts, sep ∉ p) →
      splitSep sep (joinSep sep parts) = parts := by
  intro parts
  induction parts with
  | nil => intro h _; exact absurd rfl h
  | cons p ps ih =>
    intro _ hmem
    cases ps with
    | nil =>
      simp only [joinSep]
      exact splitSep_not_mem sep p (hmem p (List.mem_cons_self p []))
    | cons q qs =>
      have hjoin : joinSep sep (p :: q :: qs) = p ++ sep :: joinSep sep (q :: qs) := rfl
      rw [hjoin, splitSep_append sep p _ (hmem p (List.mem_cons_self p _)),
        ih (by simp) (fun x hx => hmem x (List.mem_cons_of_mem p hx))]

theorem splitFirst_not_mem (sep : Char) :
    ∀ (l : List Char), sep ∉ l → splitFirst sep l = (l, none) := by
  intro l
  induction l with
  | nil => intro _; rfl
  | cons c cs ih =>
    intro h
    have hc : c ≠ sep := fun he => h (he ▸ List.mem_cons_self c cs)
    have hcs : sep ∉ cs := fun he => h (List.mem_cons_of_mem c he)
    simp [splitFirst, hc, ih hcs]

theorem splitFirst_append (sep : Char) :
    ∀ (a b : List Char), sep ∉ a → splitFirst sep (a ++ sep :: b) = (a, some b) := by
  intro a
  induction a with
  | nil => intro b _; simp [splitFirst]
  | cons c a' ih =>
    intro b h
    have hc : c ≠ sep := fun he => h (he ▸ List.mem_cons_self c a')
    have ha : sep ∉ a' := fun he => h (List.mem_cons_of_mem c he)
    simp [splitFirst, hc, ih b ha]

theorem partsNats?_map_natToChars :
    ∀ (v : List Nat), partsNats? (v.map natToChars) = some v := by
  intro v
  induction v with
  | nil => rfl
  | cons n ns ih =>
    simp only [List.map_cons, partsNats?, parseNatChars?_natToChars n, ih]

theorem not_mem_natToChars (n : Nat) (x : Char) (hx : x.isDigit = false) :
    x ∉ natToChars n := by
  intro hmem
  have := mem_natToChars_isDigit n x hmem
  simp [hx] at this

/-- PEP440-style round-trip: a nonempty release reparses to itself. -/
theorem pepParse?_pepToChars (v : List Nat) (hv : v ≠ []) :
    pepParse? (pepToChars v) = some v := by
  rw [pepParse?, pepToChars,
    splitSep_joinSep '.' (v.map natToChars) (by simpa using hv)
      (fun p hp => by
        obtain ⟨n, _, rfl⟩ := List.mem_map.mp hp
        exact not_mem_natToChars n '.' (by decide)),
    partsNats?_map_natToChars]

/-- Uptime round-trip: the decimal rendering of a second count reparses to
itself (its last character is a digit, not a `d`/`h` suffix). -/
theorem uptimeParse?_natToChars (n : Nat) : uptimeParse? (natToChars n) = some n := by
  rcases hr : (natToChars n).reverse with _ | ⟨c, rest⟩
  · exact absurd (List.reverse_eq_nil_iff.mp hr) (natToChars_ne_nil n)
  · have hcmem : c ∈ natToChars n := by
      rw [← List.mem_reverse, hr]
      exact List.mem_cons_self c rest
    have hdig := mem_natToChars_isDigit n c hcmem
    have hd : c ≠ 'd' := isDigit_ne c 'd' hdig (by decide)
    have hh : c ≠ 'h' := isDigit_ne c 'h' hdig (by decide)
    rw [uptimeParse?, hr]
    simp [hd, hh, parseNatChars?_natToChars n]

/-- Instance-type list round-trip for lists drawn from the known registry. -/
theorem instanceTypesParse?_joinSep (t : List (List Char)) (hne : t ≠ [])
    (hknown : ∀ p ∈ t, p ∈ knownInstanceTypes) :
    instanceTypesParse? (joinSep ',' t) = some t := by
  have hkfacts : ∀ p ∈ knownInstanceTypes, ',' ∉ p ∧ p.map Char.toLower = p := by decide
  have hsplit := splitSep_joinSep ',' t hne (fun p hp => (hkfacts p (hknown p hp)).1)
  have hmap : t.map (List.map Char.toLower) = t := by
    conv_rhs => rw [← List.map_id t]
    exact List.map_congr_left (fun p hp => (hkfacts p (hknown p hp)).2)
  have hall : (t.map (List.map Char.toLower)).all
      (fun p => knownInstanceTypes.contains p) = true := by
    rw [hmap, List.all_eq_true]
    intro p hp
    exact List.elem_iff.mpr (hknown p hp)
  rw [instanceTypesParse?, hsplit]
  rw [if_pos hall, hmap]

theorem operatorParse?_serialize (op : ConditionOperator) :
    operatorParse? op.serialize = some op := by
  cases op <;> decide

/-- Semver round-trip: a version whose prerelease is free of `+` reparses to
itself. -/
theorem semverParse?_semverToChars (v : SemverInfo) (hpre : '+' ∉ v.prerelease) :
    semverParse? (semverToChars v) = some v := by
  obtain ⟨M, m, p, pre, bld⟩ := v
  simp only at hpre
  have hdotA : '.' ∉ natToChars M := not_mem_natToChars M '.' (by decide)
  have hdotB : '.' ∉ natToChars m := not_mem_natToChars m '.' (by decide)
  have hdotC : '.' ∉ natToChars p := not_mem_natToChars p '.' (by decide)
  have hcore_split : splitSep '.'
      (joinSep '.' [natToChars M, natToChars m, natToChars p]) =
      [natToChars M, natToChars m, natToChars p] := by
    refine splitSep_joinSep '.' _ (by simp) (fun q hq => ?_)
    rcases (by simpa using hq : q = natToChars M ∨ q = natToChars m ∨ q = natToChars p)
      with rfl | rfl | rfl
    · exact hdotA
    · exact hdotB
    · exact hdotC
  have hplus_core : '+' ∉ joinSep '.' [natToChars M, natToChars m, natToChars p] := by
    intro hx
    simp only [joinSep, List.mem_append, List.mem_cons] at hx
    rcases hx with hx | hx | hx | hx | hx
    · exact not_mem_natToChars M '+' (by decide) hx
    · exact absurd hx (by decide)
    · exact not_mem_natToChars m '+' (by decide) hx
    · exact absurd hx (by decide)
    · exact not_mem_natToChars p '+' (by decide) hx
  have hminus_core : '-' ∉ joinSep '.' [natToChars M, natToChars m, natToChars p] := by
    intro hx
    simp only [joinSep, List.mem_append, List.mem_cons] at hx
    rcases hx with hx | hx | hx | hx | hx
    · exact not_mem_natToChars M '-' (by decide) hx
    · exact absurd hx (by decide)
    · exact not_mem_natToChars m '-' (by decide) hx
    · exact absurd hx (by decide)
    · exact not_mem_natToChars p '-' (by decide) hx
  by_cases hpe : pre = [] <;> by_cases hbe : bld = []
  · subst hpe
    subst hbe
    have hs : semverToChars ⟨M, m, p, [], []⟩ =
        joinSep '.' [natToChars M, natToChars m, natToChars p] := by
      simp [semverToChars]
    rw [hs, semverParse?, splitFirst_not_mem '+' _ hplus_core]
    simp only
    rw [splitFirst_not_mem '-' _ hminus_core]
    simp only
    rw [hcore_split]
    simp [parseNatChars?_natToChars]
  · obtain ⟨b0, bs, rfl⟩ := List.exists_cons_of_ne_nil hbe
    subst hpe
    have hs : semverToChars ⟨M, m, p, [], b0 :: bs⟩ =
        joinSep '.' [natToChars M, natToChars m, natToChars p] ++ '+' :: (b0 :: bs) := by
      simp [semverToChars]
    rw [hs, semverParse?, splitFirst_append '+' _ _ hplus_core]
    simp only
    rw [splitFirst_not_mem '-' _ hminus_core]
    simp only
    rw [hcore_split]
    simp [parseNatChars?_natToChars]
  · obtain ⟨p0, ps, rfl⟩ := List.exists_cons_of_ne_nil hpe
    subst hbe
    have hplus : '+' ∉ joinSep '.' [natToChars M, natToChars m, natToChars p] ++
        '-' :: (p0 :: ps) := by
      intro hx
      rcases List.mem_append.mp hx with hx | hx
      · exact hplus_core hx
      · rcases List.mem_cons.mp hx with hx | hx
        · exact absurd hx (by decide)
        · exact hpre hx
    have hs : semverToChars ⟨M, m, p, p0 :: ps, []⟩ =
        joinSep '.' [natToChars M, natToChars m, natToChars p] ++ '-' :: (p0 :: ps) := by
      simp [semverToChars]
    rw [hs, semverParse?, splitFirst_not_mem '+' _ hplus]
    simp only
    rw [splitFirst_append '-' _ _ hminus_core]
    simp only
    rw [hcore_split]
    simp [parseNatChars?_natToChars]
  · obtain ⟨p0, ps, rfl⟩ := List.exists_cons_of_ne_nil hpe
    obtain ⟨b0, bs, rfl⟩ := List.exists_cons_of_ne_nil hbe
    have hplus : '+' ∉ joinSep '.' [natToChars M, natToChars m, natToChars p] ++
        '-' :: (p0 :: ps) := by
      intro hx
      rcases List.mem_append.mp hx with hx | hx
      · exact hplus_core hx
      · rcases List.mem_cons.mp hx with hx | hx
        · exact absurd hx (by decide)
        · exact hpre hx
    have hs : semverToChars ⟨M, m, p, p0 :: ps, b0 :: bs⟩ =
        (joinSep '.' [natToChars M, natToChars m, natToChars p] ++ '-' :: (p0 :: ps)) ++
          '+' :: (b0 :: bs) := by
      simp [semverToChars]
    rw [hs, semverParse?, splitFirst_append '+' _ _ hplus]
    simp only
    rw [splitFirst_append '-' _ _ hminus_core]
    simp only
    rw [hcore_split]
    simp [parseNatChars?_natToChars]

/-- Claim C9 (I5): for every valid migration condition `c` — any of the
target flavors (semver kernel, PEP440-style lsbrelease, instance-type list,
uptime seconds) — parsing its serialization yields `c` back:
`from_dict (to_dict c) = some c`. -/
theorem condition_round_trip (c : MigrationCondition) (h : validCondition c = true) :
    MigrationCondition.from_dict (MigrationCondition.to_dict c) = some c := by
  cases c with
  | kernel op t =>
    simp only [validCondition, Bool.and_eq_true, Bool.not_eq_true'] at h
    obtain ⟨hop, hpre⟩ := h
    have hpre' : '+' ∉ t.prerelease := by simpa using hpre
    simp only [MigrationCondition.to_dict, MigrationCondition.from_dict,
      operatorParse?_serialize]
    rw [if_pos trivial, if_neg (by simp [hop]), semverParse?_semverToChars t hpre']
    rfl
  | lsbrelease op t =>
    simp only [validCondition, Bool.and_eq_true, Bool.not_eq_true'] at h
    obtain ⟨hop, hne⟩ := h
    have hne' : t ≠ [] := by simpa [List.isEmpty_iff] using hne
    simp only [MigrationCondition.to_dict, MigrationCondition.from_dict,
      operatorParse?_serialize]
    rw [if_pos trivial, if_neg (by simp [hop]), pepParse?_pepToChars t hne']
    simp [hop]
  | instance_type op t =>
    simp only [validCondition, Bool.and_eq_true, Bool.not_eq_true'] at h
    obtain ⟨⟨hop, hne⟩, hknown⟩ := h
    have hne' : t ≠ [] := by simpa [List.isEmpty_iff] using hne
    have hknown' : ∀ p ∈ t, p ∈ knownInstanceTypes := by
      intro p hp
      have := List.all_eq_true.mp hknown p hp
      exact List.elem_iff.mp (by simpa using this)
    simp only [MigrationCondition.to_dict, MigrationCondition.from_dict,
      operatorParse?_serialize]
    rw [if_pos trivial, if_neg (by simp [hop]), instanceTypesParse?_joinSep t hne' hknown']
    simp +decide [hop]
  | uptime op t =>
    simp only [validCondition, Bool.not_eq_true'] at h
    simp only [MigrationCondition.to_dict, MigrationCondition.from_dict,
      operatorParse?_serialize]
    rw [if_pos trivial, if_neg (by simp [h]), uptimeParse?_natToChars t]
    simp +decide [h]

theorem condition_round_trip_witness :
    MigrationCondition.from_dict
        (MigrationCondition.to_dict (MigrationCondition.uptime ConditionOperator.LE 1337)) =
      some (MigrationCondition.uptime ConditionOperator.LE 1337) :=
  condition_round_trip (MigrationCondition.uptime ConditionOperator.LE 1337) (by decide)

end Clusterman
